import Mathlib

/-!
# Verification of the spreadsheet computation core

A shallow embedding of the cell/content/dependency-graph core
(`cell.h`, `cell.cpp`, `formula.cpp`) of the YSpreadsheet repository, together
with proofs and refutations of the frozen claims about it.

The sheet is modelled as a partial map from `Position` to `Cell`, as the
design notes of the specification recommend for the raw-pointer graph: the
C++ code keys cells by identity (pointers owned by the external sheet), and
the sheet collaborator guarantees one cell object per position, so positions
serve as the vertex keys.  Components that are not part of the shown source
(the `Position` validity bound from `common.h`, the `FormulaAST` expression
object of the evaluator collaborator, and the `Sheet` collaborator's cell
materialization) are modelled from the specification and marked as such.

Recursions that the C++ performs by unbounded call recursion (the cycle
search, the cache-invalidation cascade, and formula evaluation through the
sheet) are embedded with an explicit fuel argument; exhaustion is reported
as a distinguished outcome so that every `some`/`ok` result coincides with a
terminating run of the source code.
-/

namespace Spreadsheet

/-- A (row, column) coordinate identifying a cell. -/
structure Position where
  row : Int
  col : Int
deriving DecidableEq

/-- Modelled from the spec: the maximal row count of the sheet (`common.h`,
which defines `Position`, is not part of the shown source). -/
def maxRows : Int := 16384

/-- Modelled from the spec: the maximal column count of the sheet. -/
def maxCols : Int := 16384

/-- Modelled from the spec: the validity predicate of `Position`. -/
def Position.IsValid (p : Position) : Bool :=
  decide (0 ≤ p.row) && decide (p.row < maxRows) && decide (0 ≤ p.col) && decide (p.col < maxCols)

/-- `FormulaError::Category` (`formula.cpp`): the closed error taxonomy. -/
inductive FECategory where
  | Ref
  | Value
  | Div0
deriving DecidableEq

/-- Fixed textual rendering of an error (`FormulaError::ToString`). -/
def FECategory.ToString : FECategory → String
  | .Ref => "#REF!"
  | .Value => "#VALUE!"
  | .Div0 => "#DIV/0!"

/-- Modelled from the spec: the evaluator collaborator's parsed expression
object (`FormulaAST` is external to the shown source).  Only the features the
claims exercise are represented: numeric literals, cell references, addition
and division (the spec names division by zero as an execution-time error).
Numbers are embedded as rationals standing in for the C++ `double`; none of
the claims depends on floating-point rounding. -/
inductive Expr where
  | lit (q : ℚ)
  | ref (p : Position)
  | add (a b : Expr)
  | div (a b : Expr)
deriving DecidableEq

/-- Modelled from the spec: `FormulaAST::GetCells()`, the collaborator's raw
referenced-position list — the traversal-order list of reference leaves,
"not guaranteed pre-sorted or duplicate-free" (§6 of the spec). -/
def Expr.cells : Expr → List Position
  | .lit _ => []
  | .ref p => [p]
  | .add a b => a.cells ++ b.cells
  | .div a b => a.cells ++ b.cells

/-- `FormulaInterface::Value = std::variant<double, FormulaError>`. -/
inductive FValue where
  | num (q : ℚ)
  | err (e : FECategory)
deriving DecidableEq

/-- `CellInterface::Value`: tagged union of text, number and error. -/
inductive CellValue where
  | str (t : String)
  | num (q : ℚ)
  | err (e : FECategory)
deriving DecidableEq

/-- `std::visit([](const auto& x) { return Value(x); }, *cache_)`. -/
def FValue.toCellValue : FValue → CellValue
  | .num q => .num q
  | .err e => .err e

/-- Result of one expression execution: a number or a thrown `FormulaError`
(`FormulaError` exceptions are control flow inside `Formula::Evaluate`). -/
inductive ExecRes where
  | ok (q : ℚ)
  | fail (e : FECategory)
deriving DecidableEq

/-- Helper of `cppAdjacentUnique`: `a` is the pending first element of the
current run of equal adjacent elements. -/
def cppAdjacentUniqueGo (a : Position) : List Position → List Position
  | [] => [a]
  | b :: rest => if a = b then cppAdjacentUniqueGo a rest else a :: cppAdjacentUniqueGo b rest

/-- `std::unique` followed by the shrinking `resize` in
`Formula::GetReferencedCells`: only *adjacent* duplicates are removed,
the first element of each run is kept. -/
def cppAdjacentUnique : List Position → List Position
  | [] => []
  | a :: rest => cppAdjacentUniqueGo a rest

/-- `Formula::GetReferencedCells` (`formula.cpp`, lines 80–90): keep the valid
positions of the raw AST list, then remove adjacent duplicates in place. -/
def Formula.GetReferencedCells (rawCells : List Position) : List Position :=
  cppAdjacentUnique (rawCells.filter (fun p => p.IsValid))

/-- `FORMULA_SIGN` (from `common.h`, per the spec's text-encoding convention). -/
def formulaSign : Char := '='

/-- `ESCAPE_SIGN` (from `common.h`): the escape sentinel, the apostrophe
character, written by code point. -/
def escapeSign : Char := Char.ofNat 39

/-- `Cell::Impl` and its three variants as a closed tagged union.  The
`FormulaImpl`'s mutable `cache_` field travels with the variant. -/
inductive Impl where
  | empty
  | text (t : String)
  | formula (e : Expr) (cache : Option FValue)
deriving DecidableEq

/-- `Impl::GetCache` of each variant. -/
def Impl.GetCache : Impl → Option FValue
  | .empty => none
  | .text _ => none
  | .formula _ cache => cache

/-- `Impl::DestroyCache` of each variant (`cache_.reset()` for formulas,
no-op otherwise). -/
def Impl.DestroyCache : Impl → Impl
  | .formula e _ => .formula e none
  | i => i

/-- `Impl::GetReferencedCells` of each variant. -/
def Impl.GetReferencedCells : Impl → List Position
  | .empty => []
  | .text _ => []
  | .formula e _ => Formula.GetReferencedCells e.cells

/-- `TextImpl::GetValue`: strip a leading escape sentinel from the value. -/
def TextImpl.GetValue (t : String) : String :=
  if t.front = escapeSign then t.drop 1 else t

/-- The state of one `Cell`: its content variant plus its two edge sets
(`referenced_cells_` and `dependent_cells_`, `std::unordered_set<Cell*>`
in the source, embedded as duplicate-free lists of position keys). -/
structure Cell where
  impl : Impl
  referenced_cells : List Position
  dependent_cells : List Position
deriving DecidableEq

/-- The whole sheet: the external collaborator's arena of cells. -/
abbrev SheetState := Position → Option Cell

/-- The sheet with no cells. -/
def emptySheet : SheetState := fun _ => none

/-- Apply `f` to the cell stored at `p`, if any. -/
def updAt (s : SheetState) (p : Position) (f : Cell → Cell) : SheetState :=
  fun q => if q = p then (s q).map f else s q

/-- `std::unordered_set::insert` on an edge set. -/
def insertPos (p : Position) (l : List Position) : List Position :=
  if p ∈ l then l else p :: l

/-- `dependent_cells_` of the cell at `p` (empty when no cell exists). -/
def depsOf (s : SheetState) (p : Position) : List Position :=
  match s p with
  | some c => c.dependent_cells
  | none => []

/-- `referenced_cells_` of the cell at `p` (empty when no cell exists). -/
def refsOf (s : SheetState) (p : Position) : List Position :=
  match s p with
  | some c => c.referenced_cells
  | none => []

/-- Whether the cell at `p` currently holds a memoized value
(`impl_->GetCache()` tested for presence). -/
def cacheAt (s : SheetState) (p : Position) : Bool :=
  match s p with
  | some c => c.impl.GetCache.isSome
  | none => false

/-- `impl_->DestroyCache()` on the cell at `p`. -/
def clearCacheAt (s : SheetState) (p : Position) : SheetState :=
  updAt s p (fun c => { c with impl := c.impl.DestroyCache })

/-- Modelled from the spec: `Sheet::SetCell(pos, "")` materializing a
placeholder Empty cell at `pos` (the `Sheet` collaborator is external). -/
def Sheet.MakeEmptyCell (s : SheetState) (p : Position) : SheetState :=
  fun q => if q = p then some ⟨Impl.empty, [], []⟩ else s q

/-- Outcome of the cycle-detection search: the C++ function either returns
normally (with its mutated `visited` set) or throws
`CircularDependencyException`; `fuelOut` is the embedding's marker for a run
deeper than the supplied fuel. -/
inductive CircRes where
  | ok (visited : List Position)
  | circ
  | fuelOut
deriving DecidableEq

/-- `Cell::CheckCircularDependencyImpl` (`cell.cpp`, lines 171–186): for each
position, resolve the cell; a null cell is skipped; the edited cell itself
throws; an unvisited cell has its (content-derived) referenced positions
explored recursively before being inserted into `visited`.  The `visited`
set is threaded exactly as the C++ mutates its by-reference argument. -/
def Cell.CheckCircularDependencyImpl (s : SheetState) (self : Position) :
    Nat → List Position → List Position → CircRes
  | 0, _, _ => .fuelOut
  | _ + 1, visited, [] => .ok visited
  | fuel + 1, visited, p :: rest =>
    match s p with
    | none => Cell.CheckCircularDependencyImpl s self fuel visited rest
    | some c =>
      if p = self then .circ
      else if p ∈ visited then Cell.CheckCircularDependencyImpl s self fuel visited rest
      else
        if c.impl.GetReferencedCells.isEmpty then
          Cell.CheckCircularDependencyImpl s self fuel (p :: visited) rest
        else
          match Cell.CheckCircularDependencyImpl s self fuel visited c.impl.GetReferencedCells with
          | .ok visited2 => Cell.CheckCircularDependencyImpl s self fuel (p :: visited2) rest
          | r => r

/-- `Cell::CheckCircularDependency` (`cell.cpp`, lines 165–169): run the
search from an empty `visited` set against the candidate's positions. -/
def Cell.CheckCircularDependency (s : SheetState) (self : Position) (fuel : Nat)
    (positions : List Position) : CircRes :=
  Cell.CheckCircularDependencyImpl s self fuel [] positions

/-- First loop of `Cell::UpdateDependencies` (`cell.cpp`, lines 148–150):
`for (Cell* cell : dependent_cells_) cell->referenced_cells_.erase(this);` —
each listed cell has `self` erased from its `referenced_cells_`. -/
def Cell.EraseFromReferencedOf (s : SheetState) (targets : List Position)
    (self : Position) : SheetState :=
  fun q =>
    match s q with
    | none => none
    | some c =>
      if q ∈ targets then some { c with referenced_cells := c.referenced_cells.erase self }
      else some c

/-- Second loop of `Cell::UpdateDependencies` (`cell.cpp`, lines 153–162):
for each position of the new content, materialize a missing cell, insert the
position into `self`'s `referenced_cells_` and insert `self` into that
cell's `dependent_cells_`. -/
def Cell.AddReferences (self : Position) : SheetState → List Position → SheetState
  | s, [] => s
  | s, pos :: rest =>
    let s1 := if (s pos).isSome then s else Sheet.MakeEmptyCell s pos
    let s2 := updAt s1 self (fun c => { c with referenced_cells := insertPos pos c.referenced_cells })
    let s3 := updAt s2 pos (fun c => { c with dependent_cells := insertPos self c.dependent_cells })
    Cell.AddReferences self s3 rest

/-- `Cell::UpdateDependencies` (`cell.cpp`, lines 146–163), run after the new
content is installed at `self`: the erase loop over `dependent_cells_`, the
`referenced_cells_.clear()`, then the add loop over the new content's
referenced positions. -/
def Cell.UpdateDependencies (s : SheetState) (self : Position) : SheetState :=
  let s1 := Cell.EraseFromReferencedOf s (depsOf s self) self
  let s2 := updAt s1 self (fun c => { c with referenced_cells := [] })
  match s2 self with
  | some c => Cell.AddReferences self s2 c.impl.GetReferencedCells
  | none => s2

/-- The loop body of `Cell::DestroyCache` (`cell.cpp`, lines 188–196) over a
work list of dependents: a dependent holding a memo has its own dependents
cascaded first and its memo cleared afterwards; a memo-less dependent is
skipped.  `none` marks a run deeper than the supplied fuel (the C++ recursion
is unbounded); every `some` result is the state a terminating C++ run
produces. -/
def Cell.DestroyCacheList : Nat → SheetState → List Position → Option SheetState
  | 0, _, _ => none
  | _ + 1, s, [] => some s
  | fuel + 1, s, d :: rest =>
    if cacheAt s d then
      match Cell.DestroyCacheList fuel s (depsOf s d) with
      | none => none
      | some s2 => Cell.DestroyCacheList fuel (clearCacheAt s2 d) rest
    else Cell.DestroyCacheList fuel s rest

/-- `Cell::DestroyCache(this)` as called at the end of `Cell::Set`: cascade
over the dependents of the cell at `src`. -/
def Cell.DestroyCacheFrom (fuel : Nat) (s : SheetState) (src : Position) : Option SheetState :=
  Cell.DestroyCacheList fuel s (depsOf s src)

/-- The mutation-time error family of `Cell::Set`, kept apart per throw site:
`textEmptyError` is the `TextImpl` constructor's empty-string
`std::logic_error`, `formulaCtorError` the `FormulaImpl` constructor's
missing-sentinel `std::logic_error`, `parseError` the `FormulaException`
thrown by `ParseFormula`, and `circularDependency` the
`CircularDependencyException`; `fuelOut` is the embedding's marker for a
recursion deeper than the supplied fuel. -/
inductive SetError where
  | textEmptyError
  | formulaCtorError
  | parseError
  | circularDependency
  | fuelOut
deriving DecidableEq

/-- The `TextImpl` constructor (`cell.cpp`, lines 41–43): an empty string is
rejected with a `std::logic_error`. -/
def TextImpl.Make (t : String) : Except SetError Impl :=
  if t = "" then .error .textEmptyError else .ok (.text t)

/-- The `FormulaImpl` constructor (`cell.cpp`, lines 65–70) composed with
`ParseFormula` (`formula.cpp`, lines 97–102): the leading formula sentinel is
checked, the remainder handed to the external parser, and any parser failure
rethrown as a `FormulaException`.  The parser itself is the evaluator
collaborator, passed as a parameter. -/
def FormulaImpl.Make (parse : String → Except Unit Expr) (t : String) : Except SetError Impl :=
  if t = "" ∨ t.front ≠ formulaSign then .error .formulaCtorError
  else
    match parse (t.drop 1) with
    | .ok e => .ok (.formula e none)
    | .error _ => .error .parseError

/-- The content-dispatch prefix of `Cell::Set` (`cell.cpp`, lines 106–116):
empty input becomes Empty content, input longer than one character starting
with the formula sentinel becomes Formula content, everything else Text
content. -/
def Cell.BuildImpl (parse : String → Except Unit Expr) (text : String) : Except SetError Impl :=
  if text = "" then .ok .empty
  else if 1 < text.length ∧ text.front = formulaSign then FormulaImpl.Make parse text
  else TextImpl.Make text

/-- `Cell::Set` (`cell.cpp`, lines 105–123): build the candidate content, run
the cycle check against its referenced positions, and only then install the
content, rebuild the edges and run the invalidation cascade.  The result
pairs the sheet state after the call with the raised error, if any; both
throw sites precede every mutation, so an erroring call returns the input
state.  (`Set` is a method of an existing cell; callers guarantee a cell is
stored at `self`.) -/
def Cell.Set (parse : String → Except Unit Expr) (fuel : Nat) (s : SheetState)
    (self : Position) (text : String) : SheetState × Option SetError :=
  match Cell.BuildImpl parse text with
  | .error e => (s, some e)
  | .ok impl =>
    match Cell.CheckCircularDependency s self fuel impl.GetReferencedCells with
    | .circ => (s, some .circularDependency)
    | .fuelOut => (s, some .fuelOut)
    | .ok _ =>
      let s1 := updAt s self (fun c => { c with impl := impl })
      let s2 := Cell.UpdateDependencies s1 self
      match Cell.DestroyCacheFrom fuel s2 self with
      | some s3 => (s3, none)
      | none => (s2, some .fuelOut)

/-- `Cell::Clear` (`cell.cpp`, lines 125–127): replace the content with
Empty.  Neither the graph edges nor any dependent's memo is touched. -/
def Cell.Clear (s : SheetState) (p : Position) : SheetState :=
  updAt s p (fun c => { c with impl := .empty })

/-- `Cell::GetText` (`cell.cpp`) dispatched over the content variant; the
formula printer (`FormulaAST::PrintFormula`) is the external evaluator
collaborator, passed as a parameter. -/
def Cell.GetText (printExpr : Expr → String) (s : SheetState) (p : Position) : String :=
  match s p with
  | some c =>
    match c.impl with
    | .empty => ""
    | .text t => t
    | .formula e _ => formulaSign.toString ++ printExpr e
  | none => ""

/-- Modelled from the spec: `Sheet::SetCell(pos, text)` of the external sheet
collaborator — materialize a (fresh, Empty) cell at `pos` when none exists,
then run `Cell::Set` on it. -/
def Sheet.SetCell (parse : String → Except Unit Expr) (fuel : Nat) (s : SheetState)
    (pos : Position) (text : String) : SheetState × Option SetError :=
  let s1 := if (s pos).isSome then s else Sheet.MakeEmptyCell s pos
  Cell.Set parse fuel s1 pos text

/-- The cell-value resolver lambda of `Formula::Evaluate` (`formula.cpp`,
lines 39–62), abstracted over the `Cell::GetValue` it calls back into (`gv`)
and over the standard library's whole-string numeric parse
(`iss >> result` succeeding with `iss.eof()`), which is external code
(`parseNum t = some q` states that the entire string `t` parses as the
number `q`): an invalid position throws `RefError`; a missing cell yields 0;
a numeric cell value yields the number; a text value yields 0 when empty,
the parsed number when the whole string parses, and throws `ValueError`
otherwise; an error value is rethrown as is.  Reading a value may populate
memos, so the sheet state is threaded. -/
def Formula.CellResolver (gv : SheetState → Position → Option (SheetState × CellValue))
    (parseNum : String → Option ℚ) (s : SheetState) (p : Position) :
    Option (SheetState × ExecRes) :=
  if !p.IsValid then some (s, .fail .Ref)
  else
    match s p with
    | none => some (s, .ok 0)
    | some _ =>
      match gv s p with
      | none => none
      | some (s1, v) =>
        match v with
        | .num q => some (s1, .ok q)
        | .str t =>
          if t = "" then some (s1, .ok 0)
          else
            match parseNum t with
            | some q => some (s1, .ok q)
            | none => some (s1, .fail .Value)
        | .err e => some (s1, .fail e)

/-- Modelled from the spec: `FormulaAST::Execute` of the external evaluator
collaborator, driven by the resolver callback.  Errors thrown anywhere abort
the execution (left operand first); division by zero throws `Div0`. -/
def Expr.exec (R : SheetState → Position → Option (SheetState × ExecRes)) :
    Expr → SheetState → Option (SheetState × ExecRes)
  | .lit q, s => some (s, .ok q)
  | .ref p, s => R s p
  | .add a b, s =>
    match Expr.exec R a s with
    | none => none
    | some (s1, .fail e) => some (s1, .fail e)
    | some (s1, .ok x) =>
      match Expr.exec R b s1 with
      | none => none
      | some (s2, .fail e) => some (s2, .fail e)
      | some (s2, .ok y) => some (s2, .ok (x + y))
  | .div a b, s =>
    match Expr.exec R a s with
    | none => none
    | some (s1, .fail e) => some (s1, .fail e)
    | some (s1, .ok x) =>
      match Expr.exec R b s1 with
      | none => none
      | some (s2, .fail e) => some (s2, .fail e)
      | some (s2, .ok y) => if y = 0 then some (s2, .fail .Div0) else some (s2, .ok (x / y))

/-- Store a freshly computed memo (`cache_ = formula_->Evaluate(sheet_)`). -/
def writeCacheAt (s : SheetState) (p : Position) (fv : FValue) : SheetState :=
  updAt s p (fun c =>
    match c.impl with
    | .formula e _ => { c with impl := .formula e (some fv) }
    | _ => c)

/-- `Cell::GetValue` (`cell.cpp`, line 129) dispatched over the content
variant: Empty yields the empty string, Text its escaped value, and Formula
the memo when present, otherwise `Formula::Evaluate` is run (its top-level
`catch` turning a thrown `FormulaError` into an error-valued result), the
memo stored, and the result returned.  `fuel` bounds the evaluation depth
through the sheet; `none` marks exhaustion and never arises from a
terminating C++ run. -/
def Cell.GetValue (parseNum : String → Option ℚ) :
    Nat → SheetState → Position → Option (SheetState × CellValue)
  | 0, _, _ => none
  | fuel + 1, s, p =>
    match s p with
    | none => none
    | some c =>
      match c.impl with
      | .empty => some (s, .str "")
      | .text t => some (s, .str (TextImpl.GetValue t))
      | .formula e cache =>
        match cache with
        | some fv => some (s, fv.toCellValue)
        | none =>
          match Expr.exec (Formula.CellResolver (Cell.GetValue parseNum fuel) parseNum) e s with
          | none => none
          | some (s1, r) =>
            let fv := match r with
              | .ok q => FValue.num q
              | .fail e2 => FValue.err e2
            some (writeCacheAt s1 p fv, fv.toCellValue)

/-- One hop of the references relation the cycle search walks: the cell
stored at `a` lists `b` among its content's referenced positions. -/
def RefStep (s : SheetState) (a b : Position) : Prop :=
  ∃ c, s a = some c ∧ b ∈ c.impl.GetReferencedCells

/-- Transitive-reflexive reachability along `RefStep`: "can `a` reach `b`
following references edges". -/
def Reaches (s : SheetState) (a b : Position) : Prop :=
  Relation.ReflTransGen (RefStep s) a b

/-- A dependents-path from `src` to its endpoint on which every node after
`src` holds a memo — the shape of path along which the invalidation cascade
actually propagates. -/
inductive MemoReach (s : SheetState) : Position → Position → Prop where
  | head {p d : Position} : d ∈ depsOf s p → cacheAt s d = true → MemoReach s p d
  | cons {p d e : Position} : d ∈ depsOf s p → cacheAt s d = true → MemoReach s d e →
      MemoReach s p e

/-- `t` is `s` with the memos of some cells destroyed and nothing else
changed. -/
def SubClear (s t : SheetState) : Prop :=
  ∀ p, t p = s p ∨ ∃ c, s p = some c ∧ t p = some { c with impl := c.impl.DestroyCache }

/-- Some seed in the work list `l` holds a memo and leads to `q` along a
memo-covered path (or is `q` itself). -/
def LReach (s : SheetState) (l : List Position) (q : Position) : Prop :=
  ∃ c, c ∈ l ∧ cacheAt s c = true ∧ (c = q ∨ MemoReach s c q)

/-! ## Concrete cells, parsers and scenario states

The positions `A1`, `B1`, `C1` of the specification's examples, a concrete
instantiation of the external parser covering exactly the formula texts the
scenarios use, and a stand-in for the standard library's whole-string
numeric parse that agrees with it on unsigned decimal integers. -/

/-- Position `A1`. -/
def posA : Position := ⟨0, 0⟩

/-- Position `B1`. -/
def posB : Position := ⟨0, 1⟩

/-- Position `C1`. -/
def posC : Position := ⟨0, 2⟩

/-- A concrete instantiation of the external parser, defined on the three
expression texts the scenarios submit and failing elsewhere. -/
def demoParse : String → Except Unit Expr := fun t =>
  if t = "A1" then .ok (.ref posA)
  else if t = "B1" then .ok (.ref posB)
  else if t = "1/0+B1" then .ok (.add (.div (.lit 1) (.lit 0)) (.ref posB))
  else .error ()

/-- A stand-in instantiation of the standard library's whole-string numeric
parse: defined on unsigned decimal integers, where it agrees with
`istringstream` extraction, and failing elsewhere. -/
def naturalParse (t : String) : Option ℚ :=
  if t ≠ "" ∧ t.toList.all Char.isDigit then
    some ((t.toList.foldl (fun a c => 10 * a + (c.toNat - 48)) 0 : ℕ) : ℚ)
  else none

/-- C1 scenario, step 1: on an empty sheet, `B1.Set("=A1")` (via the sheet,
which materializes `B1` and then the referenced placeholder `A1`). -/
def c1Step1 : SheetState × Option SetError :=
  Sheet.SetCell demoParse 10 emptySheet posB "=A1"

/-- C1 scenario, step 2: `B1.Set("5")`, replacing the formula with text. -/
def c1Step2 : SheetState × Option SetError :=
  Cell.Set demoParse 10 c1Step1.1 posB "5"

/-- C2 failing input: an expression such as `=A1+(B1+A1)`, whose raw
referenced-position list `[A1, B1, A1]` carries a non-adjacent duplicate. -/
def c2Expr : Expr := .add (.ref posA) (.add (.ref posB) (.ref posA))

/-- C3 scenario, step 1: `A1.Set("1")`. -/
def c3Step1 : SheetState × Option SetError :=
  Sheet.SetCell demoParse 10 emptySheet posA "1"

/-- C3 scenario, step 2: `B1.Set("=A1")`. -/
def c3Step2 : SheetState × Option SetError :=
  Sheet.SetCell demoParse 10 c3Step1.1 posB "=A1"

/-- C3 scenario, step 3: read `B1.GetValue()`, populating its memo. -/
def c3Read : Option (SheetState × CellValue) :=
  Cell.GetValue naturalParse 10 c3Step2.1 posB

/-- The sheet after the C3 read (the read succeeds; the default branch is
never taken). -/
def c3AfterRead : SheetState :=
  match c3Read with
  | some (s, _) => s
  | none => emptySheet

/-- C3 scenario, step 4: `A1.Clear()`. -/
def c3AfterClear : SheetState := Cell.Clear c3AfterRead posA

/-- C6 scenario, steps 1–3: `A1.Set("1")`, `B1.Set("=A1")`,
`C1.Set("=1/0+B1")`. -/
def c6Step1 : SheetState × Option SetError :=
  Sheet.SetCell demoParse 10 emptySheet posA "1"

/-- C6 scenario: `B1.Set("=A1")`. -/
def c6Step2 : SheetState × Option SetError :=
  Sheet.SetCell demoParse 10 c6Step1.1 posB "=A1"

/-- C6 scenario: `C1.Set("=1/0+B1")`. -/
def c6Step3 : SheetState × Option SetError :=
  Sheet.SetCell demoParse 10 c6Step2.1 posC "=1/0+B1"

/-- C6 scenario: read `C1.GetValue()`; the division throws `Div0` before the
reference to `B1` is resolved, so `C1` is memoized while `B1` is not. -/
def c6Read : Option (SheetState × CellValue) :=
  Cell.GetValue naturalParse 10 c6Step3.1 posC

/-- The sheet after the C6 read. -/
def c6AfterRead : SheetState :=
  match c6Read with
  | some (s, _) => s
  | none => emptySheet

/-- C6 scenario, final step: `A1.Set("2")`, whose cascade stops at the
memo-less `B1`. -/
def c6Step5 : SheetState × Option SetError :=
  Cell.Set demoParse 10 c6AfterRead posA "2"

/-- Witness sheet for the cascade characterization: `A1` with the single
dependent `B1`, a formula cell holding a memo. -/
def cascadeWitnessSheet : SheetState := fun q =>
  if q = posA then some ⟨Impl.empty, [], [posB]⟩
  else if q = posB then some ⟨Impl.formula (.ref posA) (some (.num 5)), [posA], []⟩
  else none

/-- The witness sheet after the cascade: `B1`'s memo destroyed. -/
def cascadeWitnessSheetAfter : SheetState := clearCacheAt cascadeWitnessSheet posB

/-- Witness sheet for the atomicity and cycle-check claims: a single Empty
cell at `A1`. -/
def singleCellSheet : SheetState := Sheet.MakeEmptyCell emptySheet posA

/-! ## Basic facts about cache destruction and the `SubClear` frame -/

theorem Impl.DestroyCache_getCache (i : Impl) : i.DestroyCache.GetCache = none := by
  cases i <;> rfl

theorem Impl.DestroyCache_idem (i : Impl) : i.DestroyCache.DestroyCache = i.DestroyCache := by
  cases i <;> rfl

theorem subClear_refl (s : SheetState) : SubClear s s := fun _ => Or.inl rfl

theorem SubClear.trans {s t u : SheetState} (h1 : SubClear s t) (h2 : SubClear t u) :
    SubClear s u := by
  intro p
  rcases h2 p with h | ⟨c, hc, hu⟩
  · rcases h1 p with h' | ⟨c, hc, ht⟩
    · exact Or.inl (h.trans h')
    · exact Or.inr ⟨c, hc, h.trans ht⟩
  · rcases h1 p with h' | ⟨c', hc', ht⟩
    · exact Or.inr ⟨c, h' ▸ hc, hu⟩
    · refine Or.inr ⟨c', hc', ?_⟩
      rw [ht] at hc
      injection hc with hc
      rw [hu, ← hc]
      simp [Impl.DestroyCache_idem]

theorem SubClear.depsOf_eq {s t : SheetState} (h : SubClear s t) (p : Position) :
    depsOf t p = depsOf s p := by
  rcases h p with h' | ⟨c, hc, ht⟩
  · simp [depsOf, h']
  · simp [depsOf, hc, ht]

theorem SubClear.cacheTrue {s t : SheetState} (h : SubClear s t) {p : Position}
    (hc : cacheAt t p = true) : cacheAt s p = true := by
  rcases h p with h' | ⟨c, hsp, htp⟩
  · rw [cacheAt, h'] at hc
    rw [cacheAt]
    exact hc
  · rw [cacheAt, htp] at hc
    simp [Impl.DestroyCache_getCache] at hc

theorem SubClear.cacheFalse {s t : SheetState} (h : SubClear s t) {p : Position}
    (hc : cacheAt s p = false) : cacheAt t p = false := by
  cases ht : cacheAt t p
  · rfl
  · rw [h.cacheTrue ht] at hc
    cases hc

theorem clearCacheAt_subClear (s : SheetState) (p : Position) :
    SubClear s (clearCacheAt s p) := by
  intro q
  by_cases hq : q = p
  · subst hq
    cases hsq : s q with
    | none => exact Or.inl (by simp [clearCacheAt, updAt, hsq])
    | some c =>
      refine Or.inr ⟨c, ?_, ?_⟩ <;> simp [clearCacheAt, updAt, hsq]
  · exact Or.inl (by simp [clearCacheAt, updAt, hq])

theorem cacheAt_clearCacheAt_self (s : SheetState) (p : Position) :
    cacheAt (clearCacheAt s p) p = false := by
  cases hsp : s p <;>
    simp [cacheAt, clearCacheAt, updAt, hsp, Impl.DestroyCache_getCache]

theorem cacheAt_clearCacheAt_ne (s : SheetState) {p q : Position} (h : q ≠ p) :
    cacheAt (clearCacheAt s p) q = cacheAt s q := by
  simp [cacheAt, clearCacheAt, updAt, h]

theorem cacheAt_congr {s t : SheetState} {p : Position} (h : t p = s p) :
    cacheAt t p = cacheAt s p := by
  simp [cacheAt, h]

theorem memoReach_mono {s t : SheetState} (h : SubClear s t) {a b : Position}
    (hr : MemoReach t a b) : MemoReach s a b := by
  induction hr with
  | head hmem hc => exact .head (h.depsOf_eq _ ▸ hmem) (h.cacheTrue hc)
  | cons hmem hc _ ih => exact .cons (h.depsOf_eq _ ▸ hmem) (h.cacheTrue hc) ih

theorem lreach_mono {s t : SheetState} {l : List Position} {q : Position} (h : SubClear s t)
    (hl : LReach t l q) : LReach s l q := by
  obtain ⟨c, hm, hc, ht⟩ := hl
  exact ⟨c, hm, h.cacheTrue hc, ht.imp id (memoReach_mono h)⟩

/-! ## The invalidation cascade: frame and characterization lemmas -/

theorem destroyCacheList_subClear :
    ∀ (fuel : Nat) (l : List Position) (s s' : SheetState),
      Cell.DestroyCacheList fuel s l = some s' → SubClear s s' := by
  intro fuel
  induction fuel with
  | zero => intro l s s' h; simp [Cell.DestroyCacheList] at h
  | succ n ih =>
    intro l s s' h
    cases l with
    | nil =>
      simp only [Cell.DestroyCacheList] at h
      injection h with h
      exact h ▸ subClear_refl s
    | cons d rest =>
      simp only [Cell.DestroyCacheList] at h
      by_cases hc : cacheAt s d = true
      · rw [if_pos hc] at h
        cases hin : Cell.DestroyCacheList n s (depsOf s d) with
        | none => rw [hin] at h; cases h
        | some s2 =>
          rw [hin] at h
          exact ((ih _ _ _ hin).trans
            (clearCacheAt_subClear s2 d)).trans (ih _ _ _ h)
      · rw [if_neg hc] at h
        exact ih _ _ _ h

theorem destroyCacheList_changed :
    ∀ (fuel : Nat) (l : List Position) (s s' : SheetState),
      Cell.DestroyCacheList fuel s l = some s' →
      ∀ q, s' q ≠ s q → LReach s l q := by
  intro fuel
  induction fuel with
  | zero => intro l s s' h; simp [Cell.DestroyCacheList] at h
  | succ n ih =>
    intro l s s' h q hq
    cases l with
    | nil =>
      simp only [Cell.DestroyCacheList] at h
      injection h with h
      exact absurd (by rw [← h]) hq
    | cons d rest =>
      simp only [Cell.DestroyCacheList] at h
      by_cases hc : cacheAt s d = true
      · rw [if_pos hc] at h
        cases hin : Cell.DestroyCacheList n s (depsOf s d) with
        | none => rw [hin] at h; cases h
        | some s2 =>
          rw [hin] at h
          by_cases h1 : s2 q = s q
          · by_cases h2 : clearCacheAt s2 d q = s2 q
            · by_cases h3 : s' q = clearCacheAt s2 d q
              · exact absurd (h3.trans (h2.trans h1)) hq
              · have hsc : SubClear s (clearCacheAt s2 d) :=
                  (destroyCacheList_subClear n _ _ _ hin).trans (clearCacheAt_subClear s2 d)
                obtain ⟨c, hm, hcc, hco⟩ := lreach_mono hsc (ih rest _ s' h q h3)
                exact ⟨c, List.mem_cons_of_mem d hm, hcc, hco⟩
            · have hqd : q = d := by
                by_contra hne
                exact h2 (by simp [clearCacheAt, updAt, hne])
              exact ⟨d, List.mem_cons_self d rest, hc, Or.inl hqd.symm⟩
          · obtain ⟨c, hm, hcc, hco⟩ := ih (depsOf s d) s s2 hin q h1
            refine ⟨d, List.mem_cons_self d rest, hc, Or.inr ?_⟩
            cases hco with
            | inl he => exact he ▸ MemoReach.head hm hcc
            | inr hr => exact MemoReach.cons hm hcc hr
      · rw [if_neg hc] at h
        obtain ⟨c, hm, hcc, hco⟩ := ih rest s s' h q hq
        exact ⟨c, List.mem_cons_of_mem d hm, hcc, hco⟩

theorem destroyCacheList_clears_seeds :
    ∀ (fuel : Nat) (l : List Position) (s s' : SheetState),
      Cell.DestroyCacheList fuel s l = some s' →
      ∀ y ∈ l, cacheAt s' y = false := by
  intro fuel
  induction fuel with
  | zero => intro l s s' h; simp [Cell.DestroyCacheList] at h
  | succ n ih =>
    intro l s s' h y hy
    cases l with
    | nil => exact absurd hy (List.not_mem_nil y)
    | cons d rest =>
      simp only [Cell.DestroyCacheList] at h
      by_cases hc : cacheAt s d = true
      · rw [if_pos hc] at h
        cases hin : Cell.DestroyCacheList n s (depsOf s d) with
        | none => rw [hin] at h; cases h
        | some s2 =>
          rw [hin] at h
          rcases List.mem_cons.mp hy with rfl | hy2
          · exact (destroyCacheList_subClear n _ _ _ h).cacheFalse
              (cacheAt_clearCacheAt_self s2 y)
          · exact ih rest _ s' h y hy2
      · rw [if_neg hc] at h
        rcases List.mem_cons.mp hy with rfl | hy2
        · simp only [Bool.not_eq_true] at hc
          exact (destroyCacheList_subClear n rest s s' h).cacheFalse hc
        · exact ih rest s s' h y hy2

theorem destroyCacheList_closure :
    ∀ (fuel : Nat) (l : List Position) (s s' : SheetState),
      Cell.DestroyCacheList fuel s l = some s' →
      ∀ x, cacheAt s x = true → cacheAt s' x = false →
      ∀ y ∈ depsOf s x, cacheAt s' y = false := by
  intro fuel
  induction fuel with
  | zero => intro l s s' h; simp [Cell.DestroyCacheList] at h
  | succ n ih =>
    intro l s s' h x hx hx' y hy
    cases l with
    | nil =>
      simp only [Cell.DestroyCacheList] at h
      injection h with h
      subst h
      rw [hx] at hx'
      cases hx'
    | cons d rest =>
      simp only [Cell.DestroyCacheList] at h
      by_cases hc : cacheAt s d = true
      · rw [if_pos hc] at h
        cases hin : Cell.DestroyCacheList n s (depsOf s d) with
        | none => rw [hin] at h; cases h
        | some s2 =>
          rw [hin] at h
          have sc1 : SubClear s s2 := destroyCacheList_subClear n _ _ _ hin
          have sc2 : SubClear s2 (clearCacheAt s2 d) := clearCacheAt_subClear s2 d
          have sc3 : SubClear (clearCacheAt s2 d) s' := destroyCacheList_subClear n rest _ _ h
          by_cases hx2 : cacheAt s2 x = true
          · by_cases hx3 : cacheAt (clearCacheAt s2 d) x = true
            · have hdeps : depsOf (clearCacheAt s2 d) x = depsOf s x :=
                (sc1.trans sc2).depsOf_eq x
              exact ih rest (clearCacheAt s2 d) s' h x hx3 hx' y (hdeps.symm ▸ hy)
            · have hxd : x = d := by
                by_contra hne
                rw [cacheAt_clearCacheAt_ne s2 hne] at hx3
                exact hx3 hx2
              subst hxd
              exact sc3.cacheFalse (sc2.cacheFalse
                (destroyCacheList_clears_seeds n _ _ _ hin y hy))
          · have hx2f : cacheAt s2 x = false := by simpa using hx2
            exact sc3.cacheFalse (sc2.cacheFalse (ih (depsOf s d) s s2 hin x hx hx2f y hy))
      · rw [if_neg hc] at h
        exact ih rest s s' h x hx hx' y hy

theorem destroyCacheList_memoReach_cleared :
    ∀ (fuel : Nat) (l : List Position) (s s' : SheetState),
      Cell.DestroyCacheList fuel s l = some s' →
      ∀ a b, MemoReach s a b → cacheAt s a = true → cacheAt s' a = false →
        cacheAt s' b = false := by
  intro fuel l s s' h a b hr
  induction hr with
  | head hmem hcb =>
    intro ha hfa
    exact destroyCacheList_closure fuel l s s' h _ ha hfa _ hmem
  | cons hmem hcd hr ih =>
    intro ha hfa
    exact ih hcd (destroyCacheList_closure fuel l s s' h _ ha hfa _ hmem)

theorem destroyCacheList_complete :
    ∀ (fuel : Nat) (l : List Position) (s s' : SheetState),
      Cell.DestroyCacheList fuel s l = some s' →
      ∀ q, LReach s l q → cacheAt s' q = false := by
  intro fuel l s s' h q hl
  obtain ⟨c, hm, hc, hco⟩ := hl
  have hcc := destroyCacheList_clears_seeds fuel l s s' h c hm
  cases hco with
  | inl he => exact he ▸ hcc
  | inr hr => exact destroyCacheList_memoReach_cleared fuel l s s' h c q hr hc hcc

theorem lreach_iff_memoReach (s : SheetState) (src q : Position) :
    LReach s (depsOf s src) q ↔ MemoReach s src q := by
  constructor
  · rintro ⟨c, hm, hc, (rfl | hr)⟩
    · exact .head hm hc
    · exact .cons hm hc hr
  · intro h
    cases h with
    | head hm hc => exact ⟨_, hm, hc, Or.inl rfl⟩
    | cons hm hc hr => exact ⟨_, hm, hc, Or.inr hr⟩

/-! ## The cycle search: soundness and completeness of the reachability test -/

theorem checkCirc_sound (s : SheetState) (self : Position) :
    ∀ (fuel : Nat) (visited l : List Position),
      Cell.CheckCircularDependencyImpl s self fuel visited l = .circ →
      ∃ p ∈ l, Reaches s p self := by
  intro fuel
  induction fuel with
  | zero => intro visited l h; simp [Cell.CheckCircularDependencyImpl] at h
  | succ n ih =>
    intro visited l h
    cases l with
    | nil => simp [Cell.CheckCircularDependencyImpl] at h
    | cons p rest =>
      simp only [Cell.CheckCircularDependencyImpl] at h
      cases hsp : s p with
      | none =>
        simp only [hsp] at h
        obtain ⟨r, hr, hrr⟩ := ih visited rest h
        exact ⟨r, List.mem_cons_of_mem p hr, hrr⟩
      | some c =>
        simp only [hsp] at h
        by_cases hps : p = self
        · refine ⟨p, List.mem_cons_self p rest, ?_⟩
          rw [hps]
          exact Relation.ReflTransGen.refl
        · rw [if_neg hps] at h
          by_cases hpv : p ∈ visited
          · rw [if_pos hpv] at h
            obtain ⟨r, hr, hrr⟩ := ih visited rest h
            exact ⟨r, List.mem_cons_of_mem p hr, hrr⟩
          · rw [if_neg hpv] at h
            by_cases hemp : c.impl.GetReferencedCells.isEmpty = true
            · rw [if_pos hemp] at h
              obtain ⟨r, hr, hrr⟩ := ih _ rest h
              exact ⟨r, List.mem_cons_of_mem p hr, hrr⟩
            · rw [if_neg hemp] at h
              cases hin : Cell.CheckCircularDependencyImpl s self n visited
                  c.impl.GetReferencedCells with
              | ok v2 =>
                rw [hin] at h
                obtain ⟨r, hr, hrr⟩ := ih _ rest h
                exact ⟨r, List.mem_cons_of_mem p hr, hrr⟩
              | circ =>
                obtain ⟨r, hr, hrr⟩ := ih visited _ hin
                exact ⟨p, List.mem_cons_self p rest,
                  Relation.ReflTransGen.head ⟨c, hsp, hr⟩ hrr⟩
              | fuelOut => rw [hin] at h; cases h

theorem checkCirc_complete (s : SheetState) (self : Position) (cself : Cell)
    (hself : s self = some cself) :
    ∀ (fuel : Nat) (visited l v' : List Position),
      (∀ q ∈ visited, ¬ Reaches s q self) →
      Cell.CheckCircularDependencyImpl s self fuel visited l = .ok v' →
      (∀ q ∈ v', ¬ Reaches s q self) ∧ ∀ p ∈ l, ¬ Reaches s p self := by
  intro fuel
  induction fuel with
  | zero => intro visited l v' hv h; simp [Cell.CheckCircularDependencyImpl] at h
  | succ n ih =>
    intro visited l v' hv h
    cases l with
    | nil =>
      simp only [Cell.CheckCircularDependencyImpl] at h
      injection h with h
      subst h
      exact ⟨hv, fun p hp => absurd hp (List.not_mem_nil p)⟩
    | cons p rest =>
      simp only [Cell.CheckCircularDependencyImpl] at h
      cases hsp : s p with
      | none =>
        simp only [hsp] at h
        obtain ⟨hv', hrest⟩ := ih visited rest v' hv h
        refine ⟨hv', ?_⟩
        intro p' hp'
        rcases List.mem_cons.mp hp' with rfl | hp2
        · intro hre
          rcases Relation.ReflTransGen.cases_head hre with heq | ⟨r, ⟨c, hc, _⟩, _⟩
          · rw [heq, hself] at hsp; cases hsp
          · rw [hsp] at hc; cases hc
        · exact hrest p' hp2
      | some c =>
        simp only [hsp] at h
        by_cases hps : p = self
        · rw [if_pos hps] at h; cases h
        · rw [if_neg hps] at h
          have hclean : (∀ r ∈ c.impl.GetReferencedCells, ¬ Reaches s r self) →
              ¬ Reaches s p self := by
            intro hrefs hre
            rcases Relation.ReflTransGen.cases_head hre with heq | ⟨r, ⟨c2, hc2, hrm⟩, hr2⟩
            · exact hps heq
            · rw [hsp] at hc2
              injection hc2 with hc2
              rw [← hc2] at hrm
              exact hrefs r hrm hr2
          by_cases hpv : p ∈ visited
          · rw [if_pos hpv] at h
            obtain ⟨hv', hrest⟩ := ih visited rest v' hv h
            refine ⟨hv', ?_⟩
            intro p' hp'
            rcases List.mem_cons.mp hp' with rfl | hp2
            · exact hv p' hpv
            · exact hrest p' hp2
          · rw [if_neg hpv] at h
            by_cases hemp : c.impl.GetReferencedCells.isEmpty = true
            · rw [if_pos hemp] at h
              have hnil : c.impl.GetReferencedCells = [] := by
                cases hl : c.impl.GetReferencedCells with
                | nil => rfl
                | cons a as => rw [hl] at hemp; simp [List.isEmpty] at hemp
              have hpclean : ¬ Reaches s p self := by
                refine hclean ?_
                intro r hr
                rw [hnil] at hr
                exact absurd hr (List.not_mem_nil r)
              have hv2 : ∀ q ∈ p :: visited, ¬ Reaches s q self := by
                intro q hq
                rcases List.mem_cons.mp hq with rfl | hq2
                · exact hpclean
                · exact hv q hq2
              obtain ⟨hv', hrest⟩ := ih (p :: visited) rest v' hv2 h
              refine ⟨hv', ?_⟩
              intro p' hp'
              rcases List.mem_cons.mp hp' with rfl | hp2
              · exact hpclean
              · exact hrest p' hp2
            · rw [if_neg hemp] at h
              cases hin : Cell.CheckCircularDependencyImpl s self n visited
                  c.impl.GetReferencedCells with
              | ok v2 =>
                rw [hin] at h
                obtain ⟨hv2c, hrefsc⟩ := ih visited _ v2 hv hin
                have hpclean : ¬ Reaches s p self := hclean hrefsc
                have hv3 : ∀ q ∈ p :: v2, ¬ Reaches s q self := by
                  intro q hq
                  rcases List.mem_cons.mp hq with rfl | hq2
                  · exact hpclean
                  · exact hv2c q hq2
                obtain ⟨hv', hrest⟩ := ih (p :: v2) rest v' hv3 h
                refine ⟨hv', ?_⟩
                intro p' hp'
                rcases List.mem_cons.mp hp' with rfl | hp2
                · exact hpclean
                · exact hrest p' hp2
              | circ => rw [hin] at h; cases h
              | fuelOut => rw [hin] at h; cases h

/-! ## `Cell::Set` with reference-free content -/

theorem updateDependencies_self_of_refless (s : SheetState) (self : Position) (c : Cell)
    (hs : s self = some c) (hr : c.impl.GetReferencedCells = []) :
    Cell.UpdateDependencies s self self = some ⟨c.impl, [], c.dependent_cells⟩ := by
  unfold Cell.UpdateDependencies
  have hE : Cell.EraseFromReferencedOf s (depsOf s self) self self =
      some (if self ∈ depsOf s self then
        { c with referenced_cells := c.referenced_cells.erase self } else c) := by
    simp only [Cell.EraseFromReferencedOf, hs]
    split <;> rfl
  have hC : updAt (Cell.EraseFromReferencedOf s (depsOf s self) self) self
      (fun c2 => { c2 with referenced_cells := [] }) self =
      some ⟨c.impl, [], c.dependent_cells⟩ := by
    by_cases hd : self ∈ depsOf s self <;> simp [updAt, hE, hd]
  simp only [hC, hr]
  simpa [Cell.AddReferences] using hC

theorem set_refless (parse : String → Except Unit Expr) (fuel : Nat)
    (s : SheetState) (self : Position) (text : String) (impl0 : Impl) (c0 : Cell)
    (hself : s self = some c0)
    (hb : Cell.BuildImpl parse text = .ok impl0)
    (hr : impl0.GetReferencedCells = [])
    (hne : (Cell.Set parse fuel s self text).2 ≠ some .fuelOut) :
    (Cell.Set parse fuel s self text).2 = none ∧
    ∃ c1, (Cell.Set parse fuel s self text).1 self = some c1 ∧
      (c1.impl = impl0 ∨ c1.impl = impl0.DestroyCache) := by
  cases fuel with
  | zero =>
    exfalso
    apply hne
    simp only [Cell.Set, hb]
    rfl
  | succ n =>
    have hcheck : Cell.CheckCircularDependency s self (n + 1) impl0.GetReferencedCells =
        .ok [] := by
      rw [hr]; rfl
    have hs1self : (updAt s self fun c => { c with impl := impl0 }) self =
        some { c0 with impl := impl0 } := by
      simp [updAt, hself]
    have hs2self : Cell.UpdateDependencies (updAt s self fun c => { c with impl := impl0 })
        self self = some ⟨impl0, [], c0.dependent_cells⟩ :=
      updateDependencies_self_of_refless _ self { c0 with impl := impl0 } hs1self hr
    have hset : Cell.Set parse (n + 1) s self text =
        (match Cell.DestroyCacheFrom (n + 1)
            (Cell.UpdateDependencies (updAt s self fun c => { c with impl := impl0 }) self)
            self with
         | some s3 => (s3, none)
         | none =>
           (Cell.UpdateDependencies (updAt s self fun c => { c with impl := impl0 }) self,
             some .fuelOut)) := by
      simp only [Cell.Set, hb, hcheck]
    cases hd : Cell.DestroyCacheFrom (n + 1)
        (Cell.UpdateDependencies (updAt s self fun c => { c with impl := impl0 }) self)
        self with
    | none =>
      exfalso
      apply hne
      rw [hset, hd]
    | some s3 =>
      have hsub : SubClear
          (Cell.UpdateDependencies (updAt s self fun c => { c with impl := impl0 }) self) s3 :=
        destroyCacheList_subClear (n + 1) _ _ _ hd
      constructor
      · rw [hset, hd]
      · rcases hsub self with hss | ⟨c2, hc2, hc2sh⟩
        · refine ⟨⟨impl0, [], c0.dependent_cells⟩, ?_, Or.inl rfl⟩
          rw [hset, hd]
          exact hss.trans hs2self
        · rw [hs2self] at hc2
          injection hc2 with hc2
          refine ⟨{ c2 with impl := c2.impl.DestroyCache }, ?_, ?_⟩
          · rw [hset, hd]
            exact hc2sh
          · right
            rw [← hc2]

/-! ## The claims -/

/-- Claim C1 (code bug): the claim states that a successful `Set` removes the
edited cell from the dependents of every cell it previously referenced, so
that references and dependents stay mutual duals.  The code instead iterates
`dependent_cells_` and erases itself from each dependent's
`referenced_cells_`.  Concretely: on an empty sheet, `B1.Set("=A1")` makes
`B1` reference `A1` (duality holds), but after `B1.Set("5")` the cell `B1`
is still in `A1`'s dependents while `A1` is no longer in `B1`'s references —
the duality the claim asserts is broken after a completed `Set`. -/
theorem C1_edge_rebuild_breaks_mutual_duality :
    c1Step1.2 = none ∧ c1Step2.2 = none ∧
    posA ∈ refsOf c1Step1.1 posB ∧ posB ∈ depsOf c1Step1.1 posA ∧
    posB ∈ depsOf c1Step2.1 posA ∧ posA ∉ refsOf c1Step2.1 posB := by
  decide

/-- Claim C2 (code bug): the claim states that `GetReferencedCells` never
returns duplicates for any raw collaborator list.  The code removes only
*adjacent* duplicates (`std::unique` without sorting), so the raw list
`[A1, B1, A1]` comes back with its duplicate intact; the
no-invalid-positions half of the claim does hold. -/
theorem C2_referenced_cells_keeps_nonadjacent_duplicate :
    Impl.GetReferencedCells (.formula c2Expr none) = [posA, posB, posA] ∧
    ¬ (Impl.GetReferencedCells (.formula c2Expr none)).Nodup ∧
    (∀ p ∈ Impl.GetReferencedCells (.formula c2Expr none), p.IsValid = true) := by
  decide

/-- Claim C3 (code bug): the claim states the memo-coherence invariant, in
particular that after `Clear()` of an upstream cell no dependent retains a
memo computed from the old value.  `Cell::Clear` only swaps in Empty content
and never runs the invalidation cascade: after `A1.Set("1")`,
`B1.Set("=A1")`, reading `B1` (memo 1) and then `A1.Clear()`, the cell `B1`
still holds the memo 1 while re-executing its formula against the current
sheet yields 0. -/
theorem C3_clear_leaves_stale_dependent_memo :
    c3Step1.2 = none ∧ c3Step2.2 = none ∧
    (c3Read.map Prod.snd) = some (.num 1) ∧
    (c3AfterClear posB).map (fun c => c.impl) =
      some (.formula (.ref posA) (some (.num 1))) ∧
    ((Expr.exec (Formula.CellResolver (Cell.GetValue naturalParse 9) naturalParse)
        (.ref posA) c3AfterClear).map Prod.snd) = some (.ok 0) ∧
    (FValue.num 1 : FValue) ≠ .num 0 := by
  decide

/-- Claim C4 (confirmed): `Cell::Set` raises both of its errors — content
construction failure (including the parser's failure wrapped as a
`FormulaException`) and the circular-dependency rejection — before any state
is mutated, so a call that ends in any such error leaves the whole sheet
(content, both edge sets, and every memo) exactly as it was. -/
theorem C4_set_is_atomic_on_failure (parse : String → Except Unit Expr) (fuel : Nat)
    (s : SheetState) (self : Position) (text : String) (e : SetError)
    (h : (Cell.Set parse fuel s self text).2 = some e) (hne : e ≠ .fuelOut) :
    (Cell.Set parse fuel s self text).1 = s := by
  unfold Cell.Set at h ⊢
  cases hb : Cell.BuildImpl parse text with
  | error e2 => simp
  | ok impl0 =>
    simp only [hb] at h ⊢
    cases hc : Cell.CheckCircularDependency s self fuel impl0.GetReferencedCells with
    | circ => simp
    | fuelOut =>
      simp only [hc] at h
      simp only [Option.some.injEq] at h
      exact absurd h.symm hne
    | ok v =>
      simp only [hc] at h ⊢
      split at h
      · simp at h
      · simp only [Option.some.injEq] at h
        exact absurd h.symm hne

/-- Witness for C4: a parse failure (`=Z9` is not in the demo parser's
domain) raises `FormulaException` and leaves the single-cell sheet
untouched. -/
theorem C4_set_is_atomic_on_failure_witness :
    (Cell.Set demoParse 10 singleCellSheet posA "=Z9").2 = some .parseError ∧
    (SetError.parseError ≠ SetError.fuelOut) ∧
    (Cell.Set demoParse 10 singleCellSheet posA "=Z9").1 = singleCellSheet :=
  ⟨by decide, by decide,
    C4_set_is_atomic_on_failure demoParse 10 singleCellSheet posA "=Z9" .parseError
      (by decide) (by decide)⟩

/-- Claim C5 (confirmed): when the candidate content is built successfully
and the search does not run out of the embedding's fuel, `Cell::Set` raises
`CircularDependencyException` exactly when some position among the candidate
content's referenced positions reaches the edited cell along
(content-derived) references edges — the direct self-reference being the
reflexive case; the memoized `visited` set does not lose completeness. -/
theorem C5_circular_error_iff_reachable (parse : String → Except Unit Expr) (fuel : Nat)
    (s : SheetState) (self : Position) (text : String) (impl0 : Impl) (c0 : Cell)
    (hself : s self = some c0)
    (hb : Cell.BuildImpl parse text = .ok impl0)
    (hf : Cell.CheckCircularDependency s self fuel impl0.GetReferencedCells ≠ .fuelOut) :
    (Cell.Set parse fuel s self text).2 = some .circularDependency ↔
      ∃ p ∈ impl0.GetReferencedCells, Reaches s p self := by
  cases hc : Cell.CheckCircularDependency s self fuel impl0.GetReferencedCells with
  | circ =>
    constructor
    · intro _
      exact checkCirc_sound s self fuel [] _ hc
    · intro _
      simp only [Cell.Set, hb, hc]
  | ok v =>
    have hcomplete := (checkCirc_complete s self c0 hself fuel [] _ v
      (fun q hq => absurd hq (List.not_mem_nil q)) hc).2
    have hnotcirc : (Cell.Set parse fuel s self text).2 ≠ some .circularDependency := by
      simp only [Cell.Set, hb, hc]
      split <;> simp
    constructor
    · intro habs
      exact absurd habs hnotcirc
    · rintro ⟨p, hp, hre⟩
      exact absurd hre (hcomplete p hp)
  | fuelOut => exact absurd hc hf

/-- Witness for C5: on a sheet holding only the Empty cell `A1`, setting
`A1` to `=A1` is rejected as circular, and the candidate's reference list
indeed reaches the edited cell (reflexively). -/
theorem C5_circular_error_iff_reachable_witness :
    singleCellSheet posA = some ⟨Impl.empty, [], []⟩ ∧
    Cell.BuildImpl demoParse "=A1" = .ok (.formula (.ref posA) none) ∧
    Cell.CheckCircularDependency singleCellSheet posA 10
      (Impl.formula (.ref posA) none).GetReferencedCells ≠ .fuelOut ∧
    ((Cell.Set demoParse 10 singleCellSheet posA "=A1").2 = some .circularDependency ↔
      ∃ p ∈ (Impl.formula (.ref posA) none).GetReferencedCells,
        Reaches singleCellSheet p posA) :=
  ⟨by decide, rfl, by decide,
    C5_circular_error_iff_reachable demoParse 10 singleCellSheet posA "=A1"
      (.formula (.ref posA) none) ⟨Impl.empty, [], []⟩ (by decide) rfl (by decide)⟩

/-- Counterexample to claim C6 as stated: after `A1.Set("1")`,
`B1.Set("=A1")`, `C1.Set("=1/0+B1")` and one read of `C1` (whose division
throws before `B1` is resolved, so `C1` is memoized while `B1` is not), the
cell `C1` transitively depends on `A1` along dependents edges and holds a
memo, yet the successful `A1.Set("2")` does not clear it: the cascade stops
at the memo-less `B1`. -/
theorem C6_cascade_exactness_counterexample :
    c6Step1.2 = none ∧ c6Step2.2 = none ∧ c6Step3.2 = none ∧
    (c6Read.map Prod.snd) = some (.err .Div0) ∧
    posB ∈ depsOf c6AfterRead posA ∧ posC ∈ depsOf c6AfterRead posB ∧
    cacheAt c6AfterRead posB = false ∧ cacheAt c6AfterRead posC = true ∧
    c6Step5.2 = none ∧ cacheAt c6Step5.1 posC = true := by
  decide

/-- Claim C6 (corrected): the cascade run by a successful `Set` clears a
cell's memo exactly when the cell held one and is reachable from the edited
cell along a dependents-path all of whose nodes after the edited cell held
memos in the pre-cascade state (so it recurses into a dependent's own
dependents before clearing it, and never through a memo-less dependent);
every other cell is left entirely untouched.  This replaces the claim's
"exactly the transitive dependents holding a memo", which
`C6_cascade_exactness_counterexample` refutes. -/
theorem C6_cascade_memo_path_characterization (fuel : Nat) (s : SheetState)
    (src : Position) (s' : SheetState)
    (h : Cell.DestroyCacheFrom fuel s src = some s') (d : Position) :
    (cacheAt s' d = false ↔ (cacheAt s d = false ∨ MemoReach s src d)) ∧
    (¬ MemoReach s src d → s' d = s d) := by
  have hrun : Cell.DestroyCacheList fuel s (depsOf s src) = some s' := h
  constructor
  · constructor
    · intro hf
      cases hsd : cacheAt s d with
      | false => exact Or.inl rfl
      | true =>
        right
        have hne : s' d ≠ s d := by
          intro he
          rw [cacheAt_congr he, hsd] at hf
          cases hf
        exact (lreach_iff_memoReach s src d).mp
          (destroyCacheList_changed fuel _ s s' hrun d hne)
    · intro hor
      cases hor with
      | inl hsf => exact (destroyCacheList_subClear fuel _ s s' hrun).cacheFalse hsf
      | inr hr =>
        exact destroyCacheList_complete fuel _ s s' hrun d
          ((lreach_iff_memoReach s src d).mpr hr)
  · intro hnr
    by_contra hne
    exact hnr ((lreach_iff_memoReach s src d).mp
      (destroyCacheList_changed fuel _ s s' hrun d hne))

/-- Witness for the corrected C6: on the two-cell witness sheet the cascade
from `A1` terminates and the characterization applies to the memoized
dependent `B1`. -/
theorem C6_cascade_memo_path_characterization_witness :
    Cell.DestroyCacheFrom 3 cascadeWitnessSheet posA = some cascadeWitnessSheetAfter ∧
    ((cacheAt cascadeWitnessSheetAfter posB = false ↔
        (cacheAt cascadeWitnessSheet posB = false ∨
          MemoReach cascadeWitnessSheet posA posB)) ∧
      (¬ MemoReach cascadeWitnessSheet posA posB →
        cascadeWitnessSheetAfter posB = cascadeWitnessSheet posB)) :=
  ⟨rfl, C6_cascade_memo_path_characterization 3 cascadeWitnessSheet posA
    cascadeWitnessSheetAfter rfl posB⟩

/-- Claim C7 (confirmed): the resolver bound into `Formula::Evaluate`
dispatches exactly as stated — `RefError` for an invalid position, numeric 0
for a missing cell, the number itself for a numeric cell value; for a text
value 0 when empty, the whole-string parse when it succeeds, `ValueError`
otherwise; an error value is rethrown as the same error; and a thrown error
aborts the enclosing execution (here: of the left operand of an addition). -/
theorem C7_resolver_semantics (parseNum : String → Option ℚ) (fuel : Nat)
    (s : SheetState) (p : Position) :
    (p.IsValid = false →
      Formula.CellResolver (Cell.GetValue parseNum fuel) parseNum s p =
        some (s, .fail .Ref)) ∧
    (p.IsValid = true → s p = none →
      Formula.CellResolver (Cell.GetValue parseNum fuel) parseNum s p =
        some (s, .ok 0)) ∧
    (∀ (c : Cell) (s1 : SheetState) (q : ℚ), p.IsValid = true → s p = some c →
      Cell.GetValue parseNum fuel s p = some (s1, .num q) →
      Formula.CellResolver (Cell.GetValue parseNum fuel) parseNum s p =
        some (s1, .ok q)) ∧
    (∀ (c : Cell) (s1 : SheetState) (t : String), p.IsValid = true → s p = some c →
      Cell.GetValue parseNum fuel s p = some (s1, .str t) →
      ((t = "" →
        Formula.CellResolver (Cell.GetValue parseNum fuel) parseNum s p =
          some (s1, .ok 0)) ∧
       (∀ q : ℚ, t ≠ "" → parseNum t = some q →
        Formula.CellResolver (Cell.GetValue parseNum fuel) parseNum s p =
          some (s1, .ok q)) ∧
       (t ≠ "" → parseNum t = none →
        Formula.CellResolver (Cell.GetValue parseNum fuel) parseNum s p =
          some (s1, .fail .Value)))) ∧
    (∀ (c : Cell) (s1 : SheetState) (e2 : FECategory), p.IsValid = true → s p = some c →
      Cell.GetValue parseNum fuel s p = some (s1, .err e2) →
      Formula.CellResolver (Cell.GetValue parseNum fuel) parseNum s p =
        some (s1, .fail e2)) ∧
    (∀ (a b : Expr) (s1 : SheetState) (e2 : FECategory),
      Expr.exec (Formula.CellResolver (Cell.GetValue parseNum fuel) parseNum) a s =
        some (s1, .fail e2) →
      Expr.exec (Formula.CellResolver (Cell.GetValue parseNum fuel) parseNum)
        (.add a b) s = some (s1, .fail e2)) := by
  refine ⟨?_, ?_, ?_, ?_, ?_, ?_⟩
  · intro hv
    simp [Formula.CellResolver, hv]
  · intro hv hsp
    simp [Formula.CellResolver, hv, hsp]
  · intro c s1 q hv hsp hgv
    simp [Formula.CellResolver, hv, hsp, hgv]
  · intro c s1 t hv hsp hgv
    refine ⟨?_, ?_, ?_⟩
    · intro ht
      simp [Formula.CellResolver, hv, hsp, hgv, ht]
    · intro q ht hpn
      simp [Formula.CellResolver, hv, hsp, hgv, ht, hpn]
    · intro ht hpn
      simp [Formula.CellResolver, hv, hsp, hgv, ht, hpn]
  · intro c s1 e2 hv hsp hgv
    simp [Formula.CellResolver, hv, hsp, hgv]
  · intro a b s1 e2 hex
    simp [Expr.exec, hex]

/-- Witness for C7: resolving `A1` on the sheet where `A1` holds the text
`1` parses the whole string and yields the number 1. -/
theorem C7_resolver_semantics_witness :
    Position.IsValid posA = true ∧
    c3Step1.1 posA = some ⟨Impl.text "1", [], []⟩ ∧
    Cell.GetValue naturalParse 5 c3Step1.1 posA = some (c3Step1.1, .str "1") ∧
    ("1" : String) ≠ "" ∧ naturalParse "1" = some 1 ∧
    Formula.CellResolver (Cell.GetValue naturalParse 5) naturalParse c3Step1.1 posA =
      some (c3Step1.1, .ok 1) :=
  ⟨by decide, by decide, rfl, by decide, by decide,
    ((C7_resolver_semantics naturalParse 5 c3Step1.1 posA).2.2.2.1
      ⟨Impl.text "1", [], []⟩ c3Step1.1 "1" (by decide) (by decide) rfl).2.1 1
      (by decide) (by decide)⟩

/-- Claim C8 (confirmed): setting any non-empty, non-formula input as cell
content succeeds and yields Text content whose `text()` is the raw string
and whose `value()` is the raw string with a leading escape sentinel
stripped (and the raw string itself when it does not start with the
sentinel).  Strings starting with the escape sentinel are never formula
input, so the non-formula hypothesis covers both halves of the claim. -/
theorem C8_text_escape_roundtrip (parse : String → Except Unit Expr)
    (printE : Expr → String) (parseNum : String → Option ℚ) (fuel f2 : Nat)
    (s : SheetState) (self : Position) (c0 : Cell) (raw : String)
    (hself : s self = some c0) (hraw : raw ≠ "")
    (hnf : ¬(1 < raw.length ∧ raw.front = formulaSign))
    (hne : (Cell.Set parse fuel s self raw).2 ≠ some .fuelOut) :
    (Cell.Set parse fuel s self raw).2 = none ∧
    Cell.GetText printE (Cell.Set parse fuel s self raw).1 self = raw ∧
    Cell.GetValue parseNum (f2 + 1) (Cell.Set parse fuel s self raw).1 self =
      some ((Cell.Set parse fuel s self raw).1,
        .str (if raw.front = escapeSign then raw.drop 1 else raw)) := by
  have hb : Cell.BuildImpl parse raw = .ok (.text raw) := by
    unfold Cell.BuildImpl TextImpl.Make
    rw [if_neg hraw, if_neg hnf, if_neg hraw]
  obtain ⟨h1, c1, hc1, him⟩ := set_refless parse fuel s self raw (.text raw) c0
    hself hb rfl hne
  have himpl : c1.impl = .text raw := by
    rcases him with h | h <;> exact h
  refine ⟨h1, ?_, ?_⟩
  · simp [Cell.GetText, hc1, himpl]
  · simp [Cell.GetValue, hc1, himpl, TextImpl.GetValue]

/-- Witness for C8: the escaped text consisting of the sentinel followed by
`123` round-trips with the sentinel retained in `text()` and stripped from
`value()`. -/
theorem C8_text_escape_roundtrip_witness :
    singleCellSheet posA = some ⟨Impl.empty, [], []⟩ ∧
    (escapeSign.toString ++ "123") ≠ "" ∧
    ¬(1 < (escapeSign.toString ++ "123").length ∧
        (escapeSign.toString ++ "123").front = formulaSign) ∧
    (Cell.Set demoParse 10 singleCellSheet posA (escapeSign.toString ++ "123")).2 ≠
      some .fuelOut ∧
    ((Cell.Set demoParse 10 singleCellSheet posA (escapeSign.toString ++ "123")).2 = none ∧
     Cell.GetText (fun _ => "")
       (Cell.Set demoParse 10 singleCellSheet posA (escapeSign.toString ++ "123")).1 posA =
       (escapeSign.toString ++ "123") ∧
     Cell.GetValue naturalParse 4
       (Cell.Set demoParse 10 singleCellSheet posA (escapeSign.toString ++ "123")).1 posA =
       some ((Cell.Set demoParse 10 singleCellSheet posA (escapeSign.toString ++ "123")).1,
         .str (if (escapeSign.toString ++ "123").front = escapeSign then
           (escapeSign.toString ++ "123").drop 1 else (escapeSign.toString ++ "123")))) :=
  ⟨by decide, by decide, by decide, by decide,
    C8_text_escape_roundtrip demoParse (fun _ => "") naturalParse 10 3 singleCellSheet
      posA ⟨Impl.empty, [], []⟩ (escapeSign.toString ++ "123") (by decide) (by decide)
      (by decide) (by decide)⟩

/-- The content dispatch of `Cell::Set` never raises the `TextImpl`
constructor's empty-string error: empty input is routed to Empty content and
the Text branch only ever receives non-empty input. -/
theorem buildImpl_not_textEmpty (parse : String → Except Unit Expr) (text : String) :
    Cell.BuildImpl parse text ≠ .error .textEmptyError := by
  unfold Cell.BuildImpl
  by_cases h0 : text = ""
  · simp [h0]
  · rw [if_neg h0]
    by_cases hg : 1 < text.length ∧ text.front = formulaSign
    · rw [if_pos hg]
      unfold FormulaImpl.Make
      by_cases hg2 : text = "" ∨ text.front ≠ formulaSign
      · simp [hg2]
      · rw [if_neg hg2]
        cases parse (text.drop 1) <;> simp
    · rw [if_neg hg]
      unfold TextImpl.Make
      simp [h0]

/-- Claim C9 (confirmed): `Cell::Set` routes the empty input string to Empty
content, and for every input the `TextImpl` constructor's empty-string error
is unreachable through `Set`. -/
theorem C9_text_empty_error_unreachable (parse : String → Except Unit Expr)
    (fuel : Nat) (s : SheetState) (self : Position) (text : String) :
    Cell.BuildImpl parse "" = .ok .empty ∧
    (Cell.Set parse fuel s self text).2 ≠ some .textEmptyError := by
  refine ⟨rfl, ?_⟩
  unfold Cell.Set
  cases hb : Cell.BuildImpl parse text with
  | error e2 =>
    have h := buildImpl_not_textEmpty parse text
    rw [hb] at h
    intro hcon
    simp only [Option.some.injEq] at hcon
    exact h (by rw [hcon])
  | ok impl0 =>
    cases hc : Cell.CheckCircularDependency s self fuel impl0.GetReferencedCells with
    | circ => simp [hc]
    | fuelOut => simp [hc]
    | ok v =>
      simp only [hc]
      split <;> simp

/-- Witness for C9: instantiated at a concrete sheet and input. -/
theorem C9_text_empty_error_unreachable_witness :
    Cell.BuildImpl demoParse "" = .ok .empty ∧
    (Cell.Set demoParse 10 singleCellSheet posA "xy").2 ≠ some .textEmptyError :=
  C9_text_empty_error_unreachable demoParse 10 singleCellSheet posA "xy"

/-- Claim C10 (confirmed): the content dispatch consults the parser only
when the input is longer than one character and starts with the formula
sentinel (for any other input the built content is independent of the
parser), and setting the one-character string `=` therefore succeeds with
Text content whose `text()` and `value()` are both `=`. -/
theorem C10_lone_formula_sign_is_text :
    (∀ (parse1 parse2 : String → Except Unit Expr) (text : String),
      ¬(1 < text.length ∧ text.front = formulaSign) →
      Cell.BuildImpl parse1 text = Cell.BuildImpl parse2 text) ∧
    (∀ (parse : String → Except Unit Expr) (printE : Expr → String)
      (parseNum : String → Option ℚ) (fuel f2 : Nat) (s : SheetState)
      (self : Position) (c0 : Cell), s self = some c0 →
      (Cell.Set parse fuel s self "=").2 ≠ some .fuelOut →
      (Cell.Set parse fuel s self "=").2 = none ∧
      (∃ c1, (Cell.Set parse fuel s self "=").1 self = some c1 ∧
        c1.impl = .text "=") ∧
      Cell.GetText printE (Cell.Set parse fuel s self "=").1 self = "=" ∧
      Cell.GetValue parseNum (f2 + 1) (Cell.Set parse fuel s self "=").1 self =
        some ((Cell.Set parse fuel s self "=").1, .str "=")) := by
  constructor
  · intro parse1 parse2 text hnf
    unfold Cell.BuildImpl
    by_cases h0 : text = ""
    · simp [h0]
    · simp only [if_neg h0, if_neg hnf]
  · intro parse printE parseNum fuel f2 s self c0 hself hne
    have hb : Cell.BuildImpl parse "=" = .ok (.text "=") := rfl
    obtain ⟨h1, c1, hc1, him⟩ := set_refless parse fuel s self "=" (.text "=") c0
      hself hb rfl hne
    have himpl : c1.impl = .text "=" := by
      rcases him with h | h <;> exact h
    have hval : TextImpl.GetValue "=" = "=" := by decide
    refine ⟨h1, ⟨c1, hc1, himpl⟩, ?_, ?_⟩
    · simp [Cell.GetText, hc1, himpl]
    · simp [Cell.GetValue, hc1, himpl, hval]

/-- Witness for C10: both parts instantiated concretely — the dispatch of
`=` agrees for two different parsers, and the full `Set` of `=` on the
single-cell sheet. -/
theorem C10_lone_formula_sign_is_text_witness :
    (¬(1 < "=".length ∧ "=".front = formulaSign) ∧
      Cell.BuildImpl demoParse "=" = Cell.BuildImpl (fun _ => .error ()) "=") ∧
    (singleCellSheet posA = some ⟨Impl.empty, [], []⟩ ∧
     (Cell.Set demoParse 10 singleCellSheet posA "=").2 ≠ some .fuelOut ∧
     ((Cell.Set demoParse 10 singleCellSheet posA "=").2 = none ∧
      (∃ c1, (Cell.Set demoParse 10 singleCellSheet posA "=").1 posA = some c1 ∧
        c1.impl = .text "=") ∧
      Cell.GetText (fun _ => "") (Cell.Set demoParse 10 singleCellSheet posA "=").1
        posA = "=" ∧
      Cell.GetValue naturalParse 4 (Cell.Set demoParse 10 singleCellSheet posA "=").1
        posA = some ((Cell.Set demoParse 10 singleCellSheet posA "=").1, .str "="))) :=
  ⟨⟨by decide, C10_lone_formula_sign_is_text.1 demoParse (fun _ => .error ()) "="
      (by decide)⟩,
   by decide, by decide,
   C10_lone_formula_sign_is_text.2 demoParse (fun _ => "") naturalParse 10 3
     singleCellSheet posA ⟨Impl.empty, [], []⟩ (by decide) (by decide)⟩

end Spreadsheet
